import Mathlib

/-!
Verification development for the RSG (random sentence generator) program
(src/assn-1-rsg/rsg.cc).  The C++ program parses a context-free grammar
from a text file into a map from nonterminal names to definitions and then
expands the nonterminal "<start>" into randomly generated sentences.

The embedding below models:
  * tokens as Lean strings, productions as lists of tokens,
  * the grammar map (std::map<string, Definition>) as an association list
    with insert-or-replace semantics,
  * the random source as an explicit list of natural-number draws that is
    threaded through every call (each draw takes the head, default 0, and
    advances to the tail),
  * C++ exceptions (std::out_of_range from map::at and string::at) and the
    grammar-format failures as an explicit error type in Except,
  * possible nontermination of the recursive expansion as a fuel parameter;
    a result of none means the fuel ran out, an embedding artifact only.
-/

/-- Error outcomes of the core, as the spec's taxonomy names them.
grammarFormat models a GrammarFormatError (malformed definition block),
undefinedNonterminal models an UndefinedNonterminalError (map::at miss),
and atOutOfRange models the std::out_of_range raised by string::at(0)
on an empty token. -/
inductive Err where
  | grammarFormat : Err
  | undefinedNonterminal : String → Err
  | atOutOfRange : Err
  deriving DecidableEq, Repr

deriving instance DecidableEq for Except

/-- A production is an ordered sequence of tokens (class Production). -/
abbrev Production := List String

/-- A definition is a nonterminal name plus its ordered list of alternative
productions (class Definition). -/
structure Definition where
  nonterminal : String
  productions : List Production
  deriving DecidableEq, Repr

/-- The grammar map from nonterminal name to definition
(std::map<string, Definition>), modelled as an association list whose keys
stay unique because insertion replaces an existing key. -/
abbrev Grammar := List (String × Definition)

/-- The explicit random source: the stream of pending draws. -/
abbrev RNG := List Nat

/-- Lookup in the grammar map (the read side of std::map). -/
def grammarFind : Grammar → String → Option Definition
  | [], _ => none
  | (k, d) :: rest, key => if k = key then some d else grammarFind rest key

/-- Insert-or-replace in the grammar map (grammar[key] = def in readGrammar):
an existing entry under the same key is overwritten, otherwise a new entry
is added. -/
def grammarInsert : Grammar → String → Definition → Grammar
  | [], key, d => [(key, d)]
  | (k, d') :: rest, key, d =>
    if k = key then (key, d) :: rest else (k, d') :: grammarInsert rest key d

/-- Modelled from the spec: Definition::getRandomProduction (its source,
definition.cc, is not in the repository).  It chooses one production from
the definition's alternatives uniformly at random; here the choice consumes
one draw from the explicit random source and reduces it modulo the number
of alternatives. -/
def getRandomProduction (d : Definition) (rng : RNG) : Production × RNG :=
  (d.productions.getD (rng.headD 0 % d.productions.length) [], rng.tail)

/-- Direct embedding of isTerminal (rsg.cc lines 52-55): a word is terminal
iff its first character is not the angle bracket; string::at(0) raises
std::out_of_range on the empty string, so the classification is partial,
returning none there. -/
def isTerminal (word : String) : Option Bool :=
  match word.data.head? with
  | none => none
  | some c => some (decide (c ≠ '<'))

/-- Embedding of buildTextVector (rsg.cc lines 70-94): walk the production's
tokens in order; append a terminal verbatim; for a nonterminal, look it up
(map::at: a miss is an UndefinedNonterminalError), draw a random alternative
and recursively expand it in place.  The fuel parameter bounds the recursion
depth of the embedding only; none means the fuel ran out. -/
def buildTextVector (g : Grammar) :
    Nat → Production → RNG → Option (Except Err (List String × RNG))
  | 0, _, _ => none
  | _ + 1, [], rng => some (.ok ([], rng))
  | fuel + 1, word :: rest, rng =>
    match isTerminal word with
    | none => some (.error .atOutOfRange)
    | some true =>
      match buildTextVector g fuel rest rng with
      | none => none
      | some (.error e) => some (.error e)
      | some (.ok (ts, rng')) => some (.ok (word :: ts, rng'))
    | some false =>
      match grammarFind g word with
      | none => some (.error (.undefinedNonterminal word))
      | some defn =>
        let pr := getRandomProduction defn rng
        match buildTextVector g fuel pr.1 pr.2 with
        | none => none
        | some (.error e) => some (.error e)
        | some (.ok (ts₁, rng₁)) =>
          match buildTextVector g fuel rest rng₁ with
          | none => none
          | some (.error e) => some (.error e)
          | some (.ok (ts₂, rng₂)) => some (.ok (ts₁ ++ ts₂, rng₂))

/-- The loop body of generateText (rsg.cc lines 128-139): expand the SAME
production the given number of times, threading the random source through
the successive expansions, and collect one output sequence per iteration. -/
def expandVersions (g : Grammar) (fuel : Nat) (p : Production) :
    Nat → RNG → Option (Except Err (List (List String) × RNG))
  | 0, rng => some (.ok ([], rng))
  | n + 1, rng =>
    match buildTextVector g fuel p rng with
    | none => none
    | some (.error e) => some (.error e)
    | some (.ok (ts, rng')) =>
      match expandVersions g fuel p n rng' with
      | none => none
      | some (.error e) => some (.error e)
      | some (.ok (vs, rng'')) => some (.ok (ts :: vs, rng''))

/-- The constant numberOfVersions = 3 hard-coded in generateText
(rsg.cc line 128). -/
def numberOfVersions : Nat := 3

/-- Embedding of generateText (rsg.cc lines 121-140): look up the start
nonterminal (map::at), draw ONE random production from its definition
before the loop, then expand that same production numberOfVersions times. -/
def generateText (startSym : String) (g : Grammar) (fuel : Nat) (rng : RNG) :
    Option (Except Err (List (List String) × RNG)) :=
  match grammarFind g startSym with
  | none => some (.error (.undefinedNonterminal startSym))
  | some defn =>
    let pr := getRandomProduction defn rng
    expandVersions g fuel pr.1 numberOfVersions pr.2

/-- Modelled from the spec: the Generator contract of section 4.3, which on
each of the count repetitions chooses a fresh random alternative from the
start definition and expands it.  Used only to compare the code's
generateText against the spec's described behavior. -/
def generateFreshVersions (g : Grammar) (fuel : Nat) (defn : Definition) :
    Nat → RNG → Option (Except Err (List (List String) × RNG))
  | 0, rng => some (.ok ([], rng))
  | n + 1, rng =>
    let pr := getRandomProduction defn rng
    match buildTextVector g fuel pr.1 pr.2 with
    | none => none
    | some (.error e) => some (.error e)
    | some (.ok (ts, rng')) =>
      match generateFreshVersions g fuel defn n rng' with
      | none => none
      | some (.error e) => some (.error e)
      | some (.ok (vs, rng'')) => some (.ok (ts :: vs, rng''))

/-- Modelled from the spec: the whole Generator contract of section 4.3
(fresh top-level draw per repetition), wrapping generateFreshVersions with
the start lookup. -/
def generateTextSpec (startSym : String) (g : Grammar) (fuel : Nat)
    (count : Nat) (rng : RNG) :
    Option (Except Err (List (List String) × RNG)) :=
  match grammarFind g startSym with
  | none => some (.error (.undefinedNonterminal startSym))
  | some defn => generateFreshVersions g fuel defn count rng

/-- Read one line from the character stream (getline): the characters up to
the first newline, and the remaining stream after that newline. -/
def readLine (s : List Char) : List Char × List Char :=
  (s.takeWhile (fun c => c ≠ '\n'), (s.dropWhile (fun c => c ≠ '\n')).drop 1)

/-- Strip leading and trailing whitespace from a character list. -/
def trimChars (s : List Char) : List Char :=
  ((s.dropWhile Char.isWhitespace).reverse.dropWhile Char.isWhitespace).reverse

/-- Parse a line as a nonnegative integer (the production count K); any
non-digit content is a format error, modelled as none. -/
def parseCount (s : List Char) : Option Nat :=
  let t := trimChars s
  if t.isEmpty then none
  else if t.all Char.isDigit then
    some (t.foldl (fun n c => n * 10 + (c.toNat - 48)) 0)
  else none

/-- Split a line into whitespace-separated tokens (operator >> on the
stream inside the Production reader): maximal runs of non-whitespace
characters become tokens, so no empty token is ever produced. -/
def splitTokensAux : List Char → List Char → List String
  | [], acc => if acc.isEmpty then [] else [String.mk acc.reverse]
  | c :: rest, acc =>
    if c.isWhitespace then
      if acc.isEmpty then splitTokensAux rest []
      else String.mk acc.reverse :: splitTokensAux rest []
    else splitTokensAux rest (c :: acc)

/-- Split a production line into its token sequence. -/
def splitTokens (s : List Char) : List String := splitTokensAux s []

/-- Modelled from the spec (section 4.1): read exactly K production lines,
one production per line, tokens separated by whitespace; reaching
end-of-stream before all K lines were read is a GrammarFormatError. -/
def readProductions : Nat → List Char → Except Err (List Production × List Char)
  | 0, s => .ok ([], s)
  | k + 1, s =>
    if s.isEmpty then .error .grammarFormat
    else
      let (line, s') := readLine s
      match readProductions k s' with
      | .error e => .error e
      | .ok (ps, s'') => .ok (splitTokens line :: ps, s'')

/-- Modelled from the spec: the Definition stream constructor
(definition.cc is not in the repository), per the block format of section
4.1.  The stream must begin with the opening brace (put back by
readGrammar); then the rest of the brace line is discarded, the nonterminal
name line and the integer count K are read, exactly K production lines
follow, and the closing brace line is consumed.  Any deviation is a
GrammarFormatError. -/
def parseDefinition (s : List Char) : Except Err (Definition × List Char) :=
  match s with
  | '{' :: rest =>
    let (_, s₁) := readLine rest
    let (nameLine, s₂) := readLine s₁
    let (countLine, s₃) := readLine s₂
    match parseCount countLine with
    | none => .error .grammarFormat
    | some k =>
      match readProductions k s₃ with
      | .error e => .error e
      | .ok (ps, s₄) =>
        let (closeLine, s₅) := readLine s₄
        if trimChars closeLine = ['}'] then
          .ok (⟨String.mk (trimChars nameLine), ps⟩, s₅)
        else .error .grammarFormat
  | _ => .error .grammarFormat

/-- Embedding of readGrammar (rsg.cc lines 30-42): repeatedly discard input
up to the next opening brace (getline with the brace as delimiter); if
end-of-stream is reached first, parsing ends successfully; otherwise the
brace is put back, one definition block is parsed, and its definition is
stored under its nonterminal name, overwriting any prior entry.  The fuel
bounds the number of loop iterations in the embedding; none means it ran
out. -/
def readGrammar : Nat → List Char → Grammar → Option (Except Err Grammar)
  | 0, _, _ => none
  | fuel + 1, s, g =>
    let rest := s.dropWhile (fun c => c ≠ '{')
    if rest.isEmpty then some (.ok g)
    else
      match parseDefinition rest with
      | .error e => some (.error e)
      | .ok (d, s') => readGrammar fuel s' (grammarInsert g d.nonterminal d)

/-- The same loop as readGrammar but collecting the parsed definition
blocks in order instead of folding them into the map; used to state how
readGrammar treats the sequence of blocks. -/
def parseAll : Nat → List Char → Option (Except Err (List Definition))
  | 0, _ => none
  | fuel + 1, s =>
    let rest := s.dropWhile (fun c => c ≠ '{')
    if rest.isEmpty then some (.ok [])
    else
      match parseDefinition rest with
      | .error e => some (.error e)
      | .ok (d, s') =>
        match parseAll fuel s' with
        | none => none
        | some (.error e) => some (.error e)
        | some (.ok ds) => some (.ok (d :: ds))

/-- Fold a sequence of parsed definition blocks into the grammar map the
way readGrammar stores them: insert-or-replace, in block order. -/
def buildGrammar (g : Grammar) (ds : List Definition) : Grammar :=
  ds.foldl (fun g d => grammarInsert g d.nonterminal d) g

/-- The last definition block with the given nonterminal name, if any:
the entry that insert-or-replace semantics keeps in the map. -/
def lastDef : List Definition → String → Option Definition
  | [], _ => none
  | d :: ds, n =>
    match lastDef ds n with
    | some d' => some d'
    | none => if d.nonterminal = n then some d else none

/-- The example grammar text of the spec's section 8 scenario. -/
def exampleText : List Char :=
  ("\x7b\n<start>\n1\nThe <animal> sat .\n\x7d\n\x7b\n<animal>\n2\ncat\ndog\n\x7d\n").data

/-- The example grammar text with the animal block omitted. -/
def exampleNoAnimalText : List Char :=
  ("\x7b\n<start>\n1\nThe <animal> sat .\n\x7d\n").data

/-- A grammar text with two definition blocks for the same nonterminal. -/
def dupText : List Char :=
  ("\x7b\n<x>\n1\na\n\x7d\n\x7b\n<x>\n1\nb\n\x7d\n").data

/-- A tiny grammar whose start definition has two alternatives; used to
separate a single top-level draw from a fresh draw per repetition. -/
def abGrammar : Grammar :=
  [("<start>", ⟨"<start>", [["a"], ["b"]]⟩)]

/-- The start symbol hard-coded in main (rsg.cc line 180). -/
def startNonTerminal : String := "<start>"

/-- The generation phase of main (rsg.cc line 181): always generates from
the hard-coded startNonTerminal; no caller-supplied start name exists. -/
def mainGenerate (g : Grammar) (fuel : Nat) (rng : RNG) :
    Option (Except Err (List (List String) × RNG)) :=
  generateText startNonTerminal g fuel rng

/-- C9: the terminal/nonterminal classification is partial at the empty
token: on the empty string, isTerminal inspects the first character via
at(0) and raises an out-of-range failure (modelled as none), so
classification is defined exactly for non-empty tokens, and expanding a
production whose next token is empty fails with the out-of-range error. -/
theorem isTerminal_partial_on_empty :
    isTerminal ("") = none ∧
    (∀ w : String, w ≠ "" → (isTerminal w).isSome = true) ∧
    (∀ (g : Grammar) (fuel : Nat) (rest : Production) (rng : RNG),
      buildTextVector g (fuel + 1) ("" :: rest) rng =
        some (Except.error Err.atOutOfRange)) := by
  refine ⟨rfl, ?_, ?_⟩
  · intro w hw
    cases hd : w.data with
    | nil => exact absurd (String.ext (show w.data = ("").data from hd)) hw
    | cons c cs => simp [isTerminal, hd]
  · intro g fuel rest rng
    simp [buildTextVector, isTerminal]

/-- Witness for C9 at concrete inputs. -/
theorem isTerminal_partial_on_empty_witness :
    (isTerminal ("cat")).isSome = true ∧
    buildTextVector [] 1 ("" :: ["x"]) [] =
      some (Except.error Err.atOutOfRange) :=
  ⟨isTerminal_partial_on_empty.2.1 ("cat") (by decide),
   isTerminal_partial_on_empty.2.2 [] 0 ["x"] []⟩

/-- C3: requesting an expansion of a nonterminal absent from the grammar
fails with the UndefinedNonterminalError (the map::at miss), both for the
start symbol in generateText and for a nested reference encountered
mid-expansion in buildTextVector, surfaced as a typed failure value. -/
theorem undefined_nonterminal_failure :
    (∀ (g : Grammar) (startSym : String) (fuel : Nat) (rng : RNG),
        grammarFind g startSym = none →
        generateText startSym g fuel rng =
          some (Except.error (Err.undefinedNonterminal startSym))) ∧
    (∀ (g : Grammar) (w : String) (rest : Production) (fuel : Nat) (rng : RNG),
        isTerminal w = some false → grammarFind g w = none →
        buildTextVector g (fuel + 1) (w :: rest) rng =
          some (Except.error (Err.undefinedNonterminal w))) := by
  constructor
  · intro g startSym fuel rng h
    simp [generateText, h]
  · intro g w rest fuel rng hterm hfind
    simp [buildTextVector, hterm, hfind]

/-- Witness for C3 at concrete inputs. -/
theorem undefined_nonterminal_failure_witness :
    generateText ("<s>") [] 0 [] =
      some (Except.error (Err.undefinedNonterminal ("<s>"))) ∧
    buildTextVector [] 1 (["<s>"]) [] =
      some (Except.error (Err.undefinedNonterminal ("<s>"))) :=
  ⟨undefined_nonterminal_failure.1 [] ("<s>") 0 [] rfl,
   undefined_nonterminal_failure.2 [] ("<s>") [] 0 [] rfl rfl⟩

/-- C10: the program always generates from the fixed start nonterminal:
main hard-codes the start symbol as the angle-bracketed word start and
passes it to generateText, so generation is never parameterized by a
caller-supplied name, and every grammar lacking that key makes the
generation phase fail. -/
theorem main_hardcoded_start :
    startNonTerminal = ("<start>") ∧
    (∀ (g : Grammar) (fuel : Nat) (rng : RNG),
        mainGenerate g fuel rng = generateText ("<start>") g fuel rng) ∧
    (∀ (g : Grammar) (fuel : Nat) (rng : RNG),
        grammarFind g ("<start>") = none →
        mainGenerate g fuel rng =
          some (Except.error (Err.undefinedNonterminal ("<start>")))) := by
  refine ⟨rfl, fun g fuel rng => rfl, fun g fuel rng h => ?_⟩
  simp [mainGenerate, startNonTerminal, generateText, h]

/-- Witness for C10 at concrete inputs. -/
theorem main_hardcoded_start_witness :
    mainGenerate [] 0 [] =
      some (Except.error (Err.undefinedNonterminal ("<start>"))) :=
  main_hardcoded_start.2.2 [] 0 [] rfl

/-- C6: expansion walks the production's tokens in order: a terminal token
is appended verbatim before the expansion of the remaining tokens, and a
nonterminal token is replaced in place by the recursive expansion of the
randomly chosen alternative of its definition, the output being the
in-order concatenation of the per-token results with the random source
threaded left to right. -/
theorem buildTextVector_in_order :
    (∀ (g : Grammar) (fuel : Nat) (word : String) (rest : Production)
        (rng : RNG) (ts : List String) (r : RNG),
        isTerminal word = some true →
        buildTextVector g fuel rest rng = some (Except.ok (ts, r)) →
        buildTextVector g (fuel + 1) (word :: rest) rng =
          some (Except.ok (word :: ts, r))) ∧
    (∀ (g : Grammar) (fuel : Nat) (word : String) (rest : Production)
        (rng : RNG) (defn : Definition) (ts₁ ts₂ : List String) (r₁ r₂ : RNG),
        isTerminal word = some false →
        grammarFind g word = some defn →
        buildTextVector g fuel (getRandomProduction defn rng).1
            (getRandomProduction defn rng).2 = some (Except.ok (ts₁, r₁)) →
        buildTextVector g fuel rest r₁ = some (Except.ok (ts₂, r₂)) →
        buildTextVector g (fuel + 1) (word :: rest) rng =
          some (Except.ok (ts₁ ++ ts₂, r₂))) := by
  constructor
  · intro g fuel word rest rng ts r hterm hrest
    simp [buildTextVector, hterm, hrest]
  · intro g fuel word rest rng defn ts₁ ts₂ r₁ r₂ hterm hfind h₁ h₂
    simp [buildTextVector, hterm, hfind, h₁, h₂]

/-- Witness for C6 at concrete inputs. -/
theorem buildTextVector_in_order_witness :
    buildTextVector [] 2 (["a"]) [] = some (Except.ok (["a"], [])) ∧
    buildTextVector [(("<n>"), ⟨("<n>"), [["x"]]⟩)] 3 (["<n>", "y"]) [] =
      some (Except.ok (["x", "y"], [])) :=
  ⟨buildTextVector_in_order.1 [] 1 ("a") [] [] [] [] rfl rfl,
   buildTextVector_in_order.2 [(("<n>"), ⟨("<n>"), [["x"]]⟩)] 2 ("<n>") ["y"]
     [] ⟨("<n>"), [["x"]]⟩ ["x"] ["y"] [] [] rfl rfl rfl rfl⟩

/-- A token classified as terminal does not start with the angle bracket. -/
theorem isTerminal_true_head {w : String} (h : isTerminal w = some true) :
    w.data.head? ≠ some '<' := by
  unfold isTerminal at h
  cases hh : w.data.head? with
  | none => simp [hh] at h
  | some c =>
    simp [hh] at h
    simp [hh, h]

/-- Every token of a successful expansion is a terminal: it does not start
with the angle bracket. -/
theorem buildTextVector_tokens_terminal :
    ∀ (g : Grammar) (fuel : Nat) (p : Production) (rng : RNG)
      (ts : List String) (r : RNG),
      buildTextVector g fuel p rng = some (Except.ok (ts, r)) →
      ∀ t ∈ ts, t.data.head? ≠ some '<' := by
  intro g fuel
  induction fuel with
  | zero => intro p rng ts r h; simp [buildTextVector] at h
  | succ n ih =>
    intro p rng ts r h
    cases p with
    | nil =>
      simp [buildTextVector] at h
      obtain ⟨h1, h2⟩ := h
      subst h1
      simp
    | cons word rest =>
      simp only [buildTextVector] at h
      cases hterm : isTerminal word with
      | none => simp [hterm] at h
      | some b =>
        cases b with
        | true =>
          simp only [hterm] at h
          cases hrec : buildTextVector g n rest rng with
          | none => simp [hrec] at h
          | some res =>
            cases res with
            | error e => simp [hrec] at h
            | ok pr =>
              obtain ⟨ts', r'⟩ := pr
              simp [hrec] at h
              obtain ⟨h1, h2⟩ := h
              subst h1
              intro t ht
              rcases List.mem_cons.mp ht with h' | h'
              · subst h'; exact isTerminal_true_head hterm
              · exact ih rest rng ts' r' hrec t h'
        | false =>
          simp only [hterm] at h
          cases hfind : grammarFind g word with
          | none => simp [hfind] at h
          | some defn =>
            simp only [hfind] at h
            cases hrec1 : buildTextVector g n (getRandomProduction defn rng).1
                (getRandomProduction defn rng).2 with
            | none => simp [hrec1] at h
            | some res1 =>
              cases res1 with
              | error e => simp [hrec1] at h
              | ok pr1 =>
                obtain ⟨ts₁, r₁⟩ := pr1
                cases hrec2 : buildTextVector g n rest r₁ with
                | none => simp [hrec1, hrec2] at h
                | some res2 =>
                  cases res2 with
                  | error e => simp [hrec1, hrec2] at h
                  | ok pr2 =>
                    obtain ⟨ts₂, r₂⟩ := pr2
                    simp [hrec1, hrec2] at h
                    obtain ⟨h1, h2⟩ := h
                    subst h1
                    intro t ht
                    rcases List.mem_append.mp ht with h' | h'
                    · exact ih _ _ ts₁ r₁ hrec1 t h'
                    · exact ih rest r₁ ts₂ r₂ hrec2 t h'

/-- Every token of every sequence produced by the generation loop is a
terminal. -/
theorem expandVersions_tokens_terminal :
    ∀ (g : Grammar) (fuel : Nat) (p : Production) (count : Nat) (rng : RNG)
      (vs : List (List String)) (r : RNG),
      expandVersions g fuel p count rng = some (Except.ok (vs, r)) →
      ∀ seq ∈ vs, ∀ t ∈ seq, t.data.head? ≠ some '<' := by
  intro g fuel p count
  induction count with
  | zero =>
    intro rng vs r h
    simp [expandVersions] at h
    obtain ⟨h1, h2⟩ := h
    subst h1
    simp
  | succ n ih =>
    intro rng vs r h
    simp only [expandVersions] at h
    cases hrec : buildTextVector g fuel p rng with
    | none => simp [hrec] at h
    | some res =>
      cases res with
      | error e => simp [hrec] at h
      | ok pr =>
        obtain ⟨ts, rng'⟩ := pr
        cases hrest : expandVersions g fuel p n rng' with
        | none => simp [hrec, hrest] at h
        | some res2 =>
          cases res2 with
          | error e => simp [hrec, hrest] at h
          | ok pr2 =>
            obtain ⟨vs', rng''⟩ := pr2
            simp [hrec, hrest] at h
            obtain ⟨h1, h2⟩ := h
            subst h1
            intro seq hseq
            rcases List.mem_cons.mp hseq with h' | h'
            · subst h'
              exact buildTextVector_tokens_terminal g fuel p rng _ _ hrec
            · exact ih rng' _ _ hrest seq h'

/-- C2: for every grammar, every sequence produced by expansion or by the
generation loop consists of terminal tokens only: no output token begins
with the angle-bracket character that marks a nonterminal. -/
theorem generated_tokens_are_terminal :
    (∀ (g : Grammar) (fuel : Nat) (p : Production) (rng : RNG)
        (ts : List String) (r : RNG),
        buildTextVector g fuel p rng = some (Except.ok (ts, r)) →
        ∀ t ∈ ts, t.data.head? ≠ some '<') ∧
    (∀ (startSym : String) (g : Grammar) (fuel : Nat) (rng : RNG)
        (vs : List (List String)) (r : RNG),
        generateText startSym g fuel rng = some (Except.ok (vs, r)) →
        ∀ seq ∈ vs, ∀ t ∈ seq, t.data.head? ≠ some '<') := by
  refine ⟨buildTextVector_tokens_terminal, ?_⟩
  intro startSym g fuel rng vs r h
  unfold generateText at h
  cases hfind : grammarFind g startSym with
  | none => simp [hfind] at h
  | some defn =>
    simp only [hfind] at h
    exact expandVersions_tokens_terminal g fuel _ numberOfVersions _ vs r h

/-- Witness for C2 at a concrete input. -/
theorem generated_tokens_are_terminal_witness :
    ("hi").data.head? ≠ some '<' :=
  generated_tokens_are_terminal.1 [] 2 (["hi"]) [] (["hi"]) [] rfl ("hi")
    (by simp)

/-- Agreement on a take-prefix is monotone downward in the prefix length. -/
theorem take_agree_mono {l₁ l₂ : RNG} {m n : Nat} (hnm : n ≤ m)
    (h : l₁.take m = l₂.take m) : l₁.take n = l₂.take n := by
  have h₁ : l₁.take n = (l₁.take m).take n := by
    rw [List.take_take, min_eq_left hnm]
  have h₂ : l₂.take n = (l₂.take m).take n := by
    rw [List.take_take, min_eq_left hnm]
  rw [h₁, h₂, h]

/-- Agreement on a prefix transfers to the drops beyond a split point. -/
theorem drop_take_agree {l₁ l₂ : RNG} {k₁ k₂ : Nat}
    (h : l₁.take (k₁ + k₂) = l₂.take (k₁ + k₂)) :
    (l₁.drop k₁).take k₂ = (l₂.drop k₁).take k₂ := by
  have e₁ : (l₁.take (k₁ + k₂)).drop k₁ = (l₁.drop k₁).take k₂ := by
    rw [List.drop_take]
    congr 1
    omega
  have e₂ : (l₂.take (k₁ + k₂)).drop k₁ = (l₂.drop k₁).take k₂ := by
    rw [List.drop_take]
    congr 1
    omega
  rw [← e₁, ← e₂, h]

/-- Dropping one more element equals dropping from the tail. -/
theorem drop_succ_eq_tail_drop (l : RNG) (k : Nat) :
    l.drop (k + 1) = l.tail.drop k := by
  rw [← List.drop_one l, List.drop_drop]
  congr 1
  omega

/-- Two random sources agreeing on the first k plus one draws make the
random production choice pick the same alternative, and leave tails that
agree on the next k draws. -/
theorem getRandomProduction_take_agree (defn : Definition)
    (rng₁ rng₂ : RNG) (k : Nat)
    (h : rng₂.take (k + 1) = rng₁.take (k + 1)) :
    (getRandomProduction defn rng₂).1 = (getRandomProduction defn rng₁).1 ∧
    (getRandomProduction defn rng₂).2.take k =
      (getRandomProduction defn rng₁).2.take k := by
  cases rng₁ with
  | nil =>
    have h2 : rng₂ = [] := by simpa using h
    subst h2
    exact ⟨rfl, rfl⟩
  | cons a t₁ =>
    cases rng₂ with
    | nil => simp at h
    | cons b t₂ =>
      simp only [List.take_succ_cons, List.cons.injEq] at h
      obtain ⟨hb, ht⟩ := h
      subst hb
      exact ⟨by simp [getRandomProduction], by simpa [getRandomProduction] using ht⟩

/-- C5: expansion is deterministic in the random source, which is threaded
explicitly: a successful expansion consumes some number k of draws, leaves
the source advanced by exactly k, and its output depends only on those k
draws, so any source agreeing on that prefix (in particular an identical
one) produces the identical output token sequence. -/
theorem buildTextVector_deterministic :
    ∀ (g : Grammar) (fuel : Nat) (p : Production) (rng₁ : RNG)
      (ts : List String) (r₁ : RNG),
      buildTextVector g fuel p rng₁ = some (Except.ok (ts, r₁)) →
      ∃ k, r₁ = rng₁.drop k ∧
        ∀ rng₂ : RNG, rng₂.take k = rng₁.take k →
          buildTextVector g fuel p rng₂ = some (Except.ok (ts, rng₂.drop k)) := by
  intro g fuel
  induction fuel with
  | zero => intro p rng₁ ts r₁ h; simp [buildTextVector] at h
  | succ n ih =>
    intro p rng₁ ts r₁ h
    cases p with
    | nil =>
      simp [buildTextVector] at h
      obtain ⟨h1, h2⟩ := h
      subst h1
      subst h2
      exact ⟨0, rfl, fun rng₂ _ => by simp [buildTextVector]⟩
    | cons word rest =>
      simp only [buildTextVector] at h
      cases hterm : isTerminal word with
      | none => simp [hterm] at h
      | some b =>
        cases b with
        | true =>
          simp only [hterm] at h
          cases hrec : buildTextVector g n rest rng₁ with
          | none => simp [hrec] at h
          | some res =>
            cases res with
            | error e => simp [hrec] at h
            | ok pr =>
              obtain ⟨ts', r'⟩ := pr
              simp [hrec] at h
              obtain ⟨h1, h2⟩ := h
              subst h1
              subst h2
              obtain ⟨k, hk, hall⟩ := ih rest rng₁ ts' r' hrec
              refine ⟨k, hk, ?_⟩
              intro rng₂ htake
              simp [buildTextVector, hterm, hall rng₂ htake]
        | false =>
          simp only [hterm] at h
          cases hfind : grammarFind g word with
          | none => simp [hfind] at h
          | some defn =>
            simp only [hfind] at h
            cases hrec1 : buildTextVector g n (getRandomProduction defn rng₁).1
                (getRandomProduction defn rng₁).2 with
            | none => simp [hrec1] at h
            | some res1 =>
              cases res1 with
              | error e => simp [hrec1] at h
              | ok pr1 =>
                obtain ⟨ts₁, rA⟩ := pr1
                cases hrec2 : buildTextVector g n rest rA with
                | none => simp [hrec1, hrec2] at h
                | some res2 =>
                  cases res2 with
                  | error e => simp [hrec1, hrec2] at h
                  | ok pr2 =>
                    obtain ⟨ts₂, rB⟩ := pr2
                    simp [hrec1, hrec2] at h
                    obtain ⟨h1, h2⟩ := h
                    subst h1
                    subst h2
                    obtain ⟨k₁, hk₁, hall₁⟩ := ih _ _ _ _ hrec1
                    obtain ⟨k₂, hk₂, hall₂⟩ := ih rest rA ts₂ rB hrec2
                    refine ⟨k₁ + k₂ + 1, ?_, ?_⟩
                    · rw [hk₂, hk₁]
                      show ((rng₁.tail.drop k₁).drop k₂) = rng₁.drop (k₁ + k₂ + 1)
                      rw [List.drop_drop, drop_succ_eq_tail_drop]
                    · intro rng₂ htake
                      obtain ⟨hch1, hch2⟩ :=
                        getRandomProduction_take_agree defn rng₁ rng₂ (k₁ + k₂)
                          htake
                      have h₁' := hall₁ (getRandomProduction defn rng₂).2
                        (take_agree_mono (Nat.le_add_right k₁ k₂) hch2)
                      have htk : ((getRandomProduction defn rng₂).2.drop k₁).take k₂
                          = rA.take k₂ := by
                        rw [hk₁]
                        exact drop_take_agree hch2
                      have h₂' := hall₂ ((getRandomProduction defn rng₂).2.drop k₁)
                        htk
                      rw [← hch1] at h₁'
                      simp only [buildTextVector, hterm, hfind, h₁', h₂']
                      have hdr : ((getRandomProduction defn rng₂).2.drop k₁).drop k₂
                          = rng₂.drop (k₁ + k₂ + 1) := by
                        show ((rng₂.tail.drop k₁).drop k₂) = rng₂.drop (k₁ + k₂ + 1)
                        rw [List.drop_drop, drop_succ_eq_tail_drop]
                      rw [hdr]

/-- Witness for C5 at a concrete input. -/
theorem buildTextVector_deterministic_witness :
    ∃ k, ([7] : RNG) = ([0, 7] : RNG).drop k ∧
      ∀ rng₂ : RNG, rng₂.take k = ([0, 7] : RNG).take k →
        buildTextVector abGrammar 3 (["<start>"]) rng₂ =
          some (Except.ok (["a"], rng₂.drop k)) :=
  buildTextVector_deterministic abGrammar 3 (["<start>"]) [0, 7] ["a"] [7] rfl

/-- One successful iteration of the generation loop splits off one
expansion of the loop's production and threads the source onward. -/
theorem expandVersions_succ :
    ∀ (g : Grammar) (fuel : Nat) (p : Production) (n : Nat) (rng : RNG)
      (vs : List (List String)) (rEnd : RNG),
      expandVersions g fuel p (n + 1) rng = some (Except.ok (vs, rEnd)) →
      ∃ ts r', buildTextVector g fuel p rng = some (Except.ok (ts, r')) ∧
        ∃ vs', vs = ts :: vs' ∧
          expandVersions g fuel p n r' = some (Except.ok (vs', rEnd)) := by
  intro g fuel p n rng vs rEnd h
  simp only [expandVersions] at h
  cases h₁ : buildTextVector g fuel p rng with
  | none => simp [h₁] at h
  | some res =>
    cases res with
    | error e => simp [h₁] at h
    | ok pr =>
      obtain ⟨ts, r'⟩ := pr
      cases h₂ : expandVersions g fuel p n r' with
      | none => simp [h₁, h₂] at h
      | some res2 =>
        cases res2 with
        | error e => simp [h₁, h₂] at h
        | ok pr2 =>
          obtain ⟨vs', r''⟩ := pr2
          simp [h₁, h₂] at h
          obtain ⟨hv, hr⟩ := h
          subst hv
          subst hr
          exact ⟨ts, r', rfl, vs', rfl, h₂⟩

/-- The generation loop at count zero returns no sequences and leaves the
source unchanged. -/
theorem expandVersions_zero :
    ∀ (g : Grammar) (fuel : Nat) (p : Production) (rng : RNG)
      (vs : List (List String)) (rEnd : RNG),
      expandVersions g fuel p 0 rng = some (Except.ok (vs, rEnd)) →
      vs = [] ∧ rEnd = rng := by
  intro g fuel p rng vs rEnd h
  simp [expandVersions] at h
  obtain ⟨h1, h2⟩ := h
  subst h1
  subst h2
  exact ⟨rfl, rfl⟩

/-- C1 (amended): generation does NOT redraw the top-level alternative per
repetition: it chooses one random alternative from the start symbol's
definition once, before the loop, and each of the 3 (= numberOfVersions)
output sequences is an expansion of that same chosen production, with the
random source threaded across the repetitions so only nested choices are
drawn fresh. -/
theorem generateText_single_top_draw :
    ∀ (g : Grammar) (startSym : String) (defn : Definition) (fuel : Nat)
      (rng : RNG) (vs : List (List String)) (rEnd : RNG),
      grammarFind g startSym = some defn →
      generateText startSym g fuel rng = some (Except.ok (vs, rEnd)) →
      ∃ t₁ t₂ t₃ r₂ r₃,
        vs = [t₁, t₂, t₃] ∧
        buildTextVector g fuel (getRandomProduction defn rng).1
          (getRandomProduction defn rng).2 = some (Except.ok (t₁, r₂)) ∧
        buildTextVector g fuel (getRandomProduction defn rng).1 r₂ =
          some (Except.ok (t₂, r₃)) ∧
        buildTextVector g fuel (getRandomProduction defn rng).1 r₃ =
          some (Except.ok (t₃, rEnd)) := by
  intro g startSym defn fuel rng vs rEnd hfind h
  simp only [generateText, hfind] at h
  obtain ⟨t₁, r₂, h₁, vs₁, hv₁, h'⟩ :=
    expandVersions_succ g fuel _ 2 _ vs rEnd h
  obtain ⟨t₂, r₃, h₂, vs₂, hv₂, h''⟩ :=
    expandVersions_succ g fuel _ 1 _ vs₁ rEnd h'
  obtain ⟨t₃, r₄, h₃, vs₃, hv₃, h'''⟩ :=
    expandVersions_succ g fuel _ 0 _ vs₂ rEnd h''
  obtain ⟨hnil, hrng⟩ := expandVersions_zero g fuel _ r₄ vs₃ rEnd h'''
  subst hnil
  subst hv₃
  subst hv₂
  subst hv₁
  subst hrng
  exact ⟨t₁, t₂, t₃, r₂, r₃, rfl, h₁, h₂, h₃⟩

/-- Counterexample to C1 as stated: on the two-alternative grammar with the
random source 0, 1, 1, the code's generateText reuses the single top-level
draw (alternative 0) for all three repetitions, while a generator that
draws a fresh top-level alternative per repetition (the spec's description)
would produce different sequences, so the two disagree. -/
theorem generateText_not_fresh_counterexample :
    generateText ("<start>") abGrammar 5 [0, 1, 1] =
      some (Except.ok ([["a"], ["a"], ["a"]], [1, 1])) ∧
    generateTextSpec ("<start>") abGrammar 5 numberOfVersions [0, 1, 1] =
      some (Except.ok ([["a"], ["b"], ["b"]], [])) ∧
    generateText ("<start>") abGrammar 5 [0, 1, 1] ≠
      generateTextSpec ("<start>") abGrammar 5 numberOfVersions [0, 1, 1] := by
  refine ⟨rfl, rfl, ?_⟩
  decide

/-- Witness for C1's amended theorem at a concrete input. -/
theorem generateText_single_top_draw_witness :
    ∃ t₁ t₂ t₃ r₂ r₃,
      ([["a"], ["a"], ["a"]] : List (List String)) = [t₁, t₂, t₃] ∧
      buildTextVector abGrammar 5
        (getRandomProduction ⟨("<start>"), [["a"], ["b"]]⟩ [0, 1, 1]).1
        (getRandomProduction ⟨("<start>"), [["a"], ["b"]]⟩ [0, 1, 1]).2 =
        some (Except.ok (t₁, r₂)) ∧
      buildTextVector abGrammar 5
        (getRandomProduction ⟨("<start>"), [["a"], ["b"]]⟩ [0, 1, 1]).1 r₂ =
        some (Except.ok (t₂, r₃)) ∧
      buildTextVector abGrammar 5
        (getRandomProduction ⟨("<start>"), [["a"], ["b"]]⟩ [0, 1, 1]).1 r₃ =
        some (Except.ok (t₃, [1, 1])) :=
  generateText_single_top_draw abGrammar ("<start>")
    ⟨("<start>"), [["a"], ["b"]]⟩ 5 [0, 1, 1] [["a"], ["a"], ["a"]] [1, 1]
    rfl rfl

/-- Looking up after insert-or-replace: the inserted key maps to the new
definition, every other key is unaffected. -/
theorem grammarFind_insert (g : Grammar) (k : String) (d : Definition)
    (n : String) :
    grammarFind (grammarInsert g k d) n =
      if k = n then some d else grammarFind g n := by
  induction g with
  | nil => simp [grammarInsert, grammarFind]
  | cons hd tl ih =>
    obtain ⟨k', d'⟩ := hd
    simp only [grammarInsert]
    by_cases hk : k' = k
    · subst hk
      by_cases hn : k' = n <;> simp [grammarFind, hn]
    · by_cases hn : k' = n
      · subst hn
        have : ¬ k = k' := fun h => hk h.symm
        simp [grammarFind, hk, this]
      · simp [grammarFind, hk, hn, ih]

/-- Insert-or-replace grows the map by one entry exactly when the key was
absent. -/
theorem grammarInsert_length (g : Grammar) (k : String) (d : Definition) :
    (grammarInsert g k d).length =
      if (grammarFind g k).isSome then g.length else g.length + 1 := by
  induction g with
  | nil => simp [grammarInsert, grammarFind]
  | cons hd tl ih =>
    obtain ⟨k', d'⟩ := hd
    simp only [grammarInsert]
    by_cases hk : k' = k
    · subst hk
      simp [grammarFind]
    · simp only [hk, if_false, grammarFind]
      rw [List.length_cons, List.length_cons, ih]
      by_cases hs : (grammarFind tl k).isSome <;> simp [hk, hs]

/-- Folding one more block into the map. -/
theorem buildGrammar_cons (g : Grammar) (d : Definition)
    (ds : List Definition) :
    buildGrammar g (d :: ds) =
      buildGrammar (grammarInsert g d.nonterminal d) ds := rfl

/-- Lookup in the folded map returns the LAST block with the sought name,
falling back to the initial map: last-write-wins. -/
theorem buildGrammar_find (ds : List Definition) :
    ∀ (g : Grammar) (n : String),
      grammarFind (buildGrammar g ds) n =
        match lastDef ds n with
        | some d => some d
        | none => grammarFind g n := by
  induction ds with
  | nil => intro g n; simp [buildGrammar, lastDef]
  | cons d ds ih =>
    intro g n
    rw [buildGrammar_cons, ih]
    simp only [lastDef]
    cases hl : lastDef ds n with
    | some d' => rfl
    | none =>
      rw [grammarFind_insert]
      by_cases hd : d.nonterminal = n <;> simp [hd]

/-- Folding blocks with pairwise-distinct fresh names adds one entry per
block. -/
theorem buildGrammar_length_nodup :
    ∀ (ds : List Definition) (g : Grammar),
      (ds.map Definition.nonterminal).Nodup →
      (∀ d ∈ ds, grammarFind g d.nonterminal = none) →
      (buildGrammar g ds).length = g.length + ds.length := by
  intro ds
  induction ds with
  | nil => intro g _ _; simp [buildGrammar]
  | cons d ds ih =>
    intro g hnodup hnone
    rw [List.map_cons, List.nodup_cons] at hnodup
    obtain ⟨hhd, htl⟩ := hnodup
    rw [buildGrammar_cons]
    have h1 : grammarFind g d.nonterminal = none :=
      hnone d (List.mem_cons_self d ds)
    have hlen : (grammarInsert g d.nonterminal d).length = g.length + 1 := by
      rw [grammarInsert_length, h1]
      simp
    rw [ih (grammarInsert g d.nonterminal d) htl ?_, hlen]
    · simp only [List.length_cons]
      omega
    · intro d' hd'
      rw [grammarFind_insert]
      have hne : d.nonterminal ≠ d'.nonterminal := by
        intro he
        exact hhd (he ▸ List.mem_map_of_mem Definition.nonterminal hd')
      simp [hne, hnone d' (List.mem_cons_of_mem d hd')]

/-- readGrammar is the fold of the sequence of parsed blocks into the map:
same loop, same outcomes, with the blocks inserted in order. -/
theorem readGrammar_eq_parseAll :
    ∀ (fuel : Nat) (s : List Char) (g : Grammar),
      readGrammar fuel s g =
        match parseAll fuel s with
        | none => none
        | some (Except.error e) => some (Except.error e)
        | some (Except.ok ds) => some (Except.ok (buildGrammar g ds)) := by
  intro fuel
  induction fuel with
  | zero => intro s g; simp [readGrammar, parseAll]
  | succ n ih =>
    intro s g
    simp only [readGrammar, parseAll]
    cases hE : (s.dropWhile (fun c => c ≠ '{')).isEmpty with
    | true => simp [hE, buildGrammar]
    | false =>
      simp only [hE, Bool.false_eq_true, if_false]
      cases hdef : parseDefinition (s.dropWhile (fun c => c ≠ '{')) with
      | error e => simp [hdef]
      | ok pr =>
        obtain ⟨d, s'⟩ := pr
        simp only [hdef]
        rw [ih s' (grammarInsert g d.nonterminal d)]
        cases hall : parseAll n s' with
        | none => rfl
        | some r =>
          cases r with
          | error e => rfl
          | ok ds => rfl

/-- C4 (amended): parsing a well-formed grammar text stores its definition
blocks in order by insert-or-replace, so the resulting map has exactly N
entries when the N block names are pairwise distinct, and on duplicate
names the later block silently overwrites the earlier one: lookup returns
the last block with that name and no duplicate-key error exists. -/
theorem readGrammar_entries :
    ∀ (fuel : Nat) (s : List Char) (ds : List Definition),
      parseAll fuel s = some (Except.ok ds) →
      readGrammar fuel s [] = some (Except.ok (buildGrammar [] ds)) ∧
      ((ds.map Definition.nonterminal).Nodup →
        (buildGrammar [] ds).length = ds.length) ∧
      (∀ n, grammarFind (buildGrammar [] ds) n = lastDef ds n) := by
  intro fuel s ds h
  refine ⟨?_, ?_, ?_⟩
  · rw [readGrammar_eq_parseAll, h]
  · intro hnodup
    have hb := buildGrammar_length_nodup ds [] hnodup
      (fun d _ => rfl)
    simpa using hb
  · intro n
    rw [buildGrammar_find ds [] n]
    cases hl : lastDef ds n <;> simp [grammarFind]

/-- Counterexample to C4 as stated: a text with two definition blocks that
share the nonterminal name x parses to a ONE-entry grammar, not a
two-entry one; the surviving entry is the later block. -/
theorem readGrammar_dup_counterexample :
    parseAll 100 dupText =
      some (Except.ok [⟨("<x>"), [["a"]]⟩, ⟨("<x>"), [["b"]]⟩]) ∧
    readGrammar 100 dupText [] =
      some (Except.ok [(("<x>"), ⟨("<x>"), [["b"]]⟩)]) ∧
    ([(("<x>"), ⟨("<x>"), [["b"]]⟩)] : Grammar).length = 1 := by
  refine ⟨?_, ?_, rfl⟩ <;> rfl

/-- Witness for C4's amended theorem at a concrete input. -/
theorem readGrammar_entries_witness :
    readGrammar 100 exampleText [] = some (Except.ok (buildGrammar []
      [⟨("<start>"), [["The", "<animal>", "sat", "."]]⟩,
       ⟨("<animal>"), [["cat"], ["dog"]]⟩])) ∧
    (buildGrammar []
      [⟨("<start>"), [["The", "<animal>", "sat", "."]]⟩,
       ⟨("<animal>"), [["cat"], ["dog"]]⟩]).length = 2 ∧
    grammarFind (buildGrammar []
      [⟨("<start>"), [["The", "<animal>", "sat", "."]]⟩,
       ⟨("<animal>"), [["cat"], ["dog"]]⟩]) ("<animal>") =
      lastDef [⟨("<start>"), [["The", "<animal>", "sat", "."]]⟩,
       ⟨("<animal>"), [["cat"], ["dog"]]⟩] ("<animal>") := by
  have h := readGrammar_entries 100 exampleText
    [⟨("<start>"), [["The", "<animal>", "sat", "."]]⟩,
     ⟨("<animal>"), [["cat"], ["dog"]]⟩] rfl
  exact ⟨h.1, h.2.1 (by decide), h.2.2 ("<animal>")⟩

/-- Reading a line never lengthens the stream. -/
theorem readLine_length_le (s : List Char) :
    (readLine s).2.length ≤ s.length := by
  simp only [readLine]
  have h1 : ((s.dropWhile (fun c => c ≠ '\n')).drop 1).length ≤
      (s.dropWhile (fun c => c ≠ '\n')).length := by
    rw [List.length_drop]
    omega
  have h2 : (s.dropWhile (fun c => c ≠ '\n')).length ≤ s.length :=
    List.Sublist.length_le (List.dropWhile_sublist _)
  exact le_trans h1 h2

/-- Reading the K production lines never lengthens the stream. -/
theorem readProductions_length_le :
    ∀ (k : Nat) (s : List Char) (ps : List Production) (s' : List Char),
      readProductions k s = Except.ok (ps, s') → s'.length ≤ s.length := by
  intro k
  induction k with
  | zero =>
    intro s ps s' h
    simp [readProductions] at h
    obtain ⟨h1, h2⟩ := h
    subst h2
    exact Nat.le_refl _
  | succ n ih =>
    intro s ps s' h
    simp only [readProductions] at h
    cases hsE : s.isEmpty with
    | true => simp [hsE] at h
    | false =>
      simp only [hsE, Bool.false_eq_true, if_false] at h
      cases hrec : readProductions n (readLine s).2 with
      | error e => simp [hrec] at h
      | ok pr =>
        obtain ⟨ps₀, s₀⟩ := pr
        simp [hrec] at h
        obtain ⟨h1, h2⟩ := h
        subst h2
        exact le_trans (ih _ _ _ hrec) (readLine_length_le s)

/-- Reading the K production lines fails only with a GrammarFormatError. -/
theorem readProductions_error :
    ∀ (k : Nat) (s : List Char) (e : Err),
      readProductions k s = Except.error e → e = Err.grammarFormat := by
  intro k
  induction k with
  | zero => intro s e h; simp [readProductions] at h
  | succ n ih =>
    intro s e h
    simp only [readProductions] at h
    cases hsE : s.isEmpty with
    | true =>
      simp [hsE] at h
      exact h.symm
    | false =>
      simp only [hsE, Bool.false_eq_true, if_false] at h
      cases hrec : readProductions n (readLine s).2 with
      | error e' =>
        simp [hrec] at h
        subst h
        exact ih _ _ hrec
      | ok pr =>
        obtain ⟨ps₀, s₀⟩ := pr
        simp [hrec] at h

/-- A successfully parsed definition block consumes at least the opening
brace: the remaining stream is strictly shorter. -/
theorem parseDefinition_length_lt :
    ∀ (s : List Char) (d : Definition) (s' : List Char),
      parseDefinition s = Except.ok (d, s') → s'.length < s.length := by
  intro s d s' h
  simp only [parseDefinition] at h
  split at h
  next rest =>
    split at h
    next => simp at h
    next k hk =>
      split at h
      next e' hrp => simp at h
      next ps s₄ hrp =>
        split at h
        next hclose =>
          simp only [Except.ok.injEq, Prod.mk.injEq] at h
          obtain ⟨hd, hs⟩ := h
          subst hs
          have c1 : (readLine s₄).2.length ≤ s₄.length := readLine_length_le s₄
          have c2 : s₄.length ≤
              (readLine (readLine (readLine rest).2).2).2.length :=
            readProductions_length_le _ _ _ _ hrp
          have c3 : (readLine (readLine (readLine rest).2).2).2.length ≤
              (readLine (readLine rest).2).2.length :=
            readLine_length_le _
          have c4 : (readLine (readLine rest).2).2.length ≤
              (readLine rest).2.length := readLine_length_le _
          have c5 : (readLine rest).2.length ≤ rest.length :=
            readLine_length_le rest
          simp only [List.length_cons]
          omega
        next => simp at h
  next => simp at h

/-- A failed definition block parse reports a GrammarFormatError only. -/
theorem parseDefinition_error :
    ∀ (s : List Char) (e : Err),
      parseDefinition s = Except.error e → e = Err.grammarFormat := by
  intro s e h
  simp only [parseDefinition] at h
  split at h
  next rest =>
    split at h
    next =>
      simp at h
      exact h.symm
    next k hk =>
      split at h
      next e' hrp =>
        simp at h
        subst h
        exact readProductions_error _ _ _ hrp
      next ps s₄ hrp =>
        split at h
        next => simp at h
        next =>
          simp at h
          exact h.symm
  next =>
    simp at h
    exact h.symm

/-- With fuel exceeding the stream length the parsing loop always
finishes: the fuel is an embedding artifact only. -/
theorem readGrammar_total :
    ∀ (fuel : Nat) (s : List Char) (g : Grammar),
      s.length < fuel → readGrammar fuel s g ≠ none := by
  intro fuel
  induction fuel with
  | zero => intro s g h; omega
  | succ n ih =>
    intro s g h
    simp only [readGrammar]
    split
    next hE => simp
    next hE =>
      split
      next e hdef => simp
      next d s' hdef =>
        apply ih
        have h1 := parseDefinition_length_lt _ _ _ hdef
        have h2 : (s.dropWhile (fun c => c ≠ '{')).length ≤ s.length :=
          List.Sublist.length_le (List.dropWhile_sublist _)
        omega

/-- The parsing loop either returns a grammar or fails with a
GrammarFormatError; no other failure kind can come out of it. -/
theorem readGrammar_ok_or_format :
    ∀ (fuel : Nat) (s : List Char) (g : Grammar) (r : Except Err Grammar),
      readGrammar fuel s g = some r →
      (∃ g', r = Except.ok g') ∨ r = Except.error Err.grammarFormat := by
  intro fuel
  induction fuel with
  | zero => intro s g r h; simp [readGrammar] at h
  | succ n ih =>
    intro s g r h
    simp only [readGrammar] at h
    split at h
    next hE =>
      injection h with h'
      exact Or.inl ⟨g, h'.symm⟩
    next hE =>
      split at h
      next e hdef =>
        injection h with h'
        right
        rw [← h', parseDefinition_error _ _ hdef]
      next d s' hdef =>
        exact ih s' _ r h

/-- C8: parsing terminates on every input with the sufficient fuel, fails
only with a GrammarFormatError when the stream does not conform to the
block format, and stops cleanly with no error (returning the grammar
accumulated so far) when end-of-stream is reached between definitions,
i.e. when no further opening brace remains in the input. -/
theorem readGrammar_format_or_clean_stop :
    ∀ (s : List Char) (g : Grammar),
      (∃ r, readGrammar (s.length + 1) s g = some r) ∧
      (∀ (fuel : Nat) (r : Except Err Grammar),
        readGrammar fuel s g = some r →
        (∃ g', r = Except.ok g') ∨ r = Except.error Err.grammarFormat) ∧
      ('{' ∉ s → readGrammar (s.length + 1) s g = some (Except.ok g)) := by
  intro s g
  refine ⟨?_, fun fuel r h => readGrammar_ok_or_format fuel s g r h, ?_⟩
  · cases hr : readGrammar (s.length + 1) s g with
    | none => exact absurd hr (readGrammar_total _ s g (by omega))
    | some r => exact ⟨r, rfl⟩
  · intro hno
    have hE : s.dropWhile (fun c => c ≠ '{') = [] := by
      rw [List.dropWhile_eq_nil_iff]
      intro x hx
      simp
      intro heq
      exact hno (heq ▸ hx)
    simp only [readGrammar]
    rw [hE]
    simp

/-- Witness for C8 at a concrete input. -/
theorem readGrammar_format_or_clean_stop_witness :
    readGrammar 10 (("No braces").data) [] = some (Except.ok []) :=
  (readGrammar_format_or_clean_stop (("No braces").data) []).2.2 (by decide)

/-- C7: the spec's example scenario: the two-block example grammar parses
to exactly 2 definitions; generating from the start symbol with a random
source that always selects alternative index 0 (the empty draw list, whose
every draw defaults to 0) yields the token sequence The cat sat . on each
of the three versions; and with the animal block omitted, expansion from
the start symbol fails with the UndefinedNonterminalError for the animal
nonterminal. -/
theorem example_scenario :
    readGrammar 100 exampleText [] = some (Except.ok
      [(("<start>"), ⟨("<start>"), [["The", "<animal>", "sat", "."]]⟩),
       (("<animal>"), ⟨("<animal>"), [["cat"], ["dog"]]⟩)]) ∧
    ([(("<start>"), ⟨("<start>"), [["The", "<animal>", "sat", "."]]⟩),
      (("<animal>"), ⟨("<animal>"), [["cat"], ["dog"]]⟩)] : Grammar).length
      = 2 ∧
    generateText ("<start>")
      [(("<start>"), ⟨("<start>"), [["The", "<animal>", "sat", "."]]⟩),
       (("<animal>"), ⟨("<animal>"), [["cat"], ["dog"]]⟩)] 10 [] =
      some (Except.ok ([["The", "cat", "sat", "."], ["The", "cat", "sat", "."],
        ["The", "cat", "sat", "."]], [])) ∧
    readGrammar 100 exampleNoAnimalText [] = some (Except.ok
      [(("<start>"), ⟨("<start>"), [["The", "<animal>", "sat", "."]]⟩)]) ∧
    generateText ("<start>")
      [(("<start>"), ⟨("<start>"), [["The", "<animal>", "sat", "."]]⟩)] 10 []
      = some (Except.error (Err.undefinedNonterminal ("<animal>"))) :=
  ⟨rfl, rfl, rfl, rfl, rfl⟩
